import Mathlib

/-!
Verification development for the routing utilities of this repository.

Namespace SwapUtils embeds src/token-swap/program/src/utils.rs:
the quote-matrix builder calculate_swap_return, the quantizer
interpolation, and the distribution optimizer find_distribution with its
backpointer reconstruction.  Namespace OORoute embeds the instruction
decoder OOSwapInstruction::unpack of src/oo-route/program/src/instruction.rs.

Modelling conventions.  Machine integers are Nat (u64/usize/u128) and Int
(i128).  A Rust panic (unwrap, expect, index out of range) is modelled as
none of an Option-valued function.  Rust in-place loops are rendered as
structural recursions computing the final value of each mutable cell; the
correspondence with the loop order is noted at each definition.  The u64
compound assignments source_account_amount -= amount_in and
dest_account_amount += amount_in are modelled with Nat subtraction and
addition; the theorems below are applied at inputs where no u64 underflow
or overflow occurs, where this model is exact.
-/

namespace SwapUtils

/-- Embeds the constant MIN_VALUE = -(10^36) of utils.rs: the sentinel used
to initialise unreachable DP cells. -/
def MIN_VALUE : Int := -((10 : Int) ^ 36)

/-- Largest value of a Rust u64. -/
def u64Max : Nat := 2 ^ 64 - 1

/-- Rust u64::checked_mul: none exactly when the product overflows u64. -/
def checked_mul (a b : Nat) : Option Nat :=
  if a * b ≤ u64Max then some (a * b) else none

/-- Rust u64::checked_div: none exactly when the divisor is zero. -/
def checked_div (a b : Nat) : Option Nat :=
  if b = 0 then none else some (a / b)

/-- Option-valued traversal modelling Rust iterator map + collect whose body
may panic: the whole traversal is none when any element maps to none. -/
def mapOption {β γ : Type} (f : β → Option γ) : List β → Option (List γ)
  | [] => some []
  | x :: xs =>
    match f x, mapOption f xs with
    | some y, some ys => some (y :: ys)
    | _, _ => none

/-- Embeds interpolation of utils.rs: element i of the output is
in_amount.checked_mul(i+1).expect(..).checked_div(partition).unwrap(),
for i in 0..partition; the expect/unwrap panics are the none outcome. -/
def interpolation (in_amount partition : Nat) : Option (List Nat) :=
  mapOption
    (fun i => (checked_mul in_amount (i + 1)).bind fun p => checked_div p partition)
    (List.range partition)

/-- Embeds calculate_swap_return of utils.rs, abstracting the external curve
as a function swap : amount_in → source reserve → dest reserve → Option α
(the SwapResult type and the fixed trade direction and fees are folded into
swap; α stands for SwapResult).  The Rust closure mutates the captured
reserves after each quote: source_account_amount -= amount_in and
dest_account_amount += amount_in; the recursion threads exactly those
updated values.  The .unwrap() on a rejected quote is the none outcome. -/
def calculate_swap_return {α : Type} (swap : Nat → Nat → Nat → Option α) :
    List Nat → Nat → Nat → Option (List α)
  | [], _, _ => some []
  | amount_in :: rest, source_account_amount, dest_account_amount =>
    match swap amount_in source_account_amount dest_account_amount with
    | none => none
    | some res =>
      match calculate_swap_return swap rest
          (source_account_amount - amount_in) (dest_account_amount + amount_in) with
      | none => none
      | some tl => some (res :: tl)

/-- One step of the inner k-scan of find_distribution: the accumulator is
the pair (answer[i][j], parent[i][j]); the cell is overwritten only on
strict improvement, mirroring
if answer[i-1][j-k] + amounts[i][k] > answer[i][j]. -/
def scanStep (prev row : Nat → Int) (j : Nat) (best : Int × Nat) (k : Nat) : Int × Nat :=
  if prev (j - k) + row k > best.1 then (prev (j - k) + row k, j - k) else best

/-- The inner loop for k in 1..j+1 of find_distribution, starting from the
initialisation answer[i][j] = answer[i-1][j], parent[i][j] = j. -/
def innerScan (prev row : Nat → Int) (j : Nat) : Int × Nat :=
  (List.range' 1 j).foldl (scanStep prev row j) (prev j, j)

/-- Final contents of the answer table of find_distribution, the tables
being sized partition+1 per row.  The first loop writes
answer[0][j] = amounts[0][j] only for j < partition; the second loop
overwrites every cell answer[i][j], i ≥ 1, j < partition, with the result
of the inner scan over the previous row (the transient MIN_VALUE fill of
the first loop is dead).  Column partition is never written and keeps its
zero initialisation from vec![0i128; partition+1]. -/
def answer (partition : Nat) (amounts : Nat → Nat → Int) : Nat → Nat → Int
  | 0 => fun j => if j < partition then amounts 0 j else 0
  | i + 1 => fun j =>
      if j < partition then (innerScan (answer partition amounts i) (amounts (i + 1)) j).1
      else 0

/-- Final contents of the parent table of find_distribution.  Row 0 is set
to 0 by the first loop (matching its zero initialisation); rows i ≥ 1 hold
the backpointer chosen by the inner scan for j < partition; column
partition is never written and keeps its zero initialisation. -/
def parent (partition : Nat) (amounts : Nat → Nat → Int) : Nat → Nat → Nat
  | 0 => fun _ => 0
  | i + 1 => fun j =>
      if j < partition then (innerScan (answer partition amounts i) (amounts (i + 1)) j).2
      else 0

/-- Embeds the reconstruction loop of find_distribution: while left > 0,
push left - parent[dex][left], set left to parent[dex][left], and stop
after pushing when dex = 0, else decrement dex. -/
def backwalk (pt : Nat → Nat → Nat) : Nat → Nat → List Nat
  | 0, left => if left = 0 then [] else [left - pt 0 left]
  | d + 1, left =>
    if left = 0 then [] else
      (left - pt (d + 1) left) :: backwalk pt d (pt (d + 1) left)

/-- Embeds find_distribution of utils.rs: builds the answer and parent
tables and walks the backpointers starting at dex = dex_count - 1,
left = partition.  The amounts slice-of-slices is abstracted as a total
function; every index the code reads lies below dexCount and partition+1,
where the two representations agree. -/
def find_distribution (partition dexCount : Nat) (amounts : Nat → Nat → Int) : List Nat :=
  backwalk (parent partition amounts) (dexCount - 1) partition

/-- The candidate value the inner scan of find_distribution compares at a
split point k: at k = 0 the initialisation answer[i-1][j] (the spec's
convention M[v][0] = 0), and answer[i-1][j-k] + amounts[i][k] for k ≥ 1. -/
def candidate (prev row : Nat → Int) (j k : Nat) : Int :=
  if k = 0 then prev j else prev (j - k) + row k

/-- Modelled from the spec: one row of the recurrence of spec section 4.3,
answer[v][j] = max over k in [0, j] of answer[v-1][j-k] + M[v][k] with
M[v][0] = 0 by convention.  Stated as a fold of max over k = 0..j. -/
def answerSpecRow (prev row : Nat → Int) (j : Nat) : Int :=
  ((List.range (j + 1)).map fun k => prev (j - k) + (if k = 0 then 0 else row k)).foldl
    max (prev j)

/-- Modelled from the spec: the full recurrence of spec section 4.3 under
the P+1 sizing convention, with answer[-1][j] taken as 0 at v = 0.  Used
only to exhibit the value the claimed recurrence assigns to a cell. -/
def answerSpec (amounts : Nat → Nat → Int) : Nat → Nat → Int
  | 0 => fun j => answerSpecRow (fun _ => 0) (amounts 0) j
  | v + 1 => fun j => answerSpecRow (answerSpec amounts v) (amounts (v + 1)) j

/-- The two-venue linear-curve quote matrix of the spec's test scenario:
venue 0 quotes 10,20,30,40 and venue 1 quotes 9,18,27,36 at quanta
1,2,3,4, with column 0 the zero-allocation identity. -/
def M_linear : Nat → Nat → Int := fun v k =>
  if v = 0 then ([0, 10, 20, 30, 40] : List Int).getD k 0
  else ([0, 9, 18, 27, 36] : List Int).getD k 0

/-- One venue, one quantum: the sole quotation is 5 at one quantum. -/
def M_single : Nat → Nat → Int := fun v k => if v = 0 ∧ k = 1 then 5 else 0

/-- A quote matrix whose every cell is the sentinel. -/
def M_sentinel : Nat → Nat → Int := fun _ _ => MIN_VALUE

/-- The all-zero quote matrix. -/
def M_zero : Nat → Nat → Int := fun _ _ => 0

end SwapUtils

namespace OORoute

/-- The spl_token_swap Swap instruction payload carried by each decoded
entry: an input amount and a minimum acceptable output, both u64. -/
structure Swap where
  amount_in : Nat
  minimum_amount_out : Nat
deriving DecidableEq

/-- Embeds OOSwapStruct of the oo-route state: the decoded entries and the
declared count byte. -/
structure OOSwapStruct where
  data : List Swap
  swap_info_len : Nat
deriving DecidableEq

/-- Embeds the OOSwapInstruction enum; tag 0 is its only variant. -/
inductive OOSwapInstruction where
  | OOSwap : OOSwapStruct → OOSwapInstruction
deriving DecidableEq

/-- u64::from_le_bytes over a byte list, least significant byte first. -/
def fromLeBytes (l : List Nat) : Nat :=
  l.foldr (fun b acc => b + 256 * acc) 0

/-- Embeds OOSwapInstruction::unpack_u64: split off 8 bytes and decode them
little-endian, erring (none) when fewer than 8 bytes remain. -/
def unpack_u64 (input : List Nat) : Option (Nat × List Nat) :=
  if 8 ≤ input.length then some (fromLeBytes (input.take 8), input.drop 8)
  else none

/-- Embeds the decoding loop for _ in 0..size of unpack.  Each iteration
calls unpack_u64 on the same outer slice rest: the inner let bindings of
amount_in and the re-split remainder shadow rest only within one loop
body, so every entry is parsed from the first 16 bytes of rest. -/
def readSwaps (rest : List Nat) : Nat → Option (List Swap)
  | 0 => some []
  | n + 1 =>
    match unpack_u64 rest with
    | none => none
    | some (amount_in, r1) =>
      match unpack_u64 r1 with
      | none => none
      | some (minimum_amount_out, _) =>
        match readSwaps rest n with
        | none => none
        | some tl => some (⟨amount_in, minimum_amount_out⟩ :: tl)

/-- Embeds OOSwapInstruction::unpack over a byte string (each element a
byte value): split the tag, then the count byte swap_info_len, require the
remaining length to be a multiple of 16 whose quotient, cast to u8 as
size % 256, equals the count byte, then run the decoding loop.  Every
Rust error return is none. -/
def unpack (input : List Nat) : Option OOSwapInstruction :=
  match input with
  | [] => none
  | tag :: rest =>
    if tag = 0 then
      match rest with
      | [] => none
      | swap_info_len :: rest2 =>
        if rest2.length % 16 ≠ 0 then none
        else if rest2.length / 16 % 256 ≠ swap_info_len then none
        else
          match readSwaps rest2 (rest2.length / 16) with
          | none => none
          | some data => some (OOSwapInstruction.OOSwap ⟨data, swap_info_len⟩)
    else none

end OORoute

namespace SwapUtils

/-- The backpointer walk stops immediately once left reaches 0. -/
theorem backwalk_zero (pt : Nat → Nat → Nat) (d : Nat) : backwalk pt d 0 = [] := by
  cases d <;> simp [backwalk]

/-- Column partition of the parent table keeps its zero initialisation:
neither loop of find_distribution ever writes index partition. -/
theorem parent_top_col (P : Nat) (M : Nat → Nat → Int) (i : Nat) :
    parent P M i P = 0 := by
  cases i with
  | zero => rfl
  | succ n => simp [parent]

/-- C9: for every non-empty venue list and every partition ≥ 1,
find_distribution returns exactly the one-element vector [partition],
independent of the contents of the amounts matrix: both DP loops iterate j
only over [0, partition), so parent[dex_count-1][partition] retains its
zero initialisation and the backpointer walk terminates after a single
step that assigns all partition quanta to the highest-indexed venue. -/
theorem find_distribution_ignores_amounts (partition dexCount : Nat)
    (amounts : Nat → Nat → Int) (hP : 1 ≤ partition) (hV : 1 ≤ dexCount) :
    find_distribution partition dexCount amounts = [partition] := by
  unfold find_distribution
  have hP0 : partition ≠ 0 := by omega
  cases hd : dexCount - 1 with
  | zero =>
    simp [backwalk, hP0, parent_top_col]
  | succ d =>
    simp [backwalk, hP0, parent_top_col, backwalk_zero]

/-- Witness for C9 at partition = 4, two venues, a nonzero matrix. -/
theorem find_distribution_ignores_amounts_witness :
    1 ≤ 4 ∧ 1 ≤ 2 ∧
      find_distribution 4 2 (fun v k => (v : Int) * 100 + k) = [4] :=
  ⟨by decide, by decide,
    find_distribution_ignores_amounts 4 2 (fun v k => (v : Int) * 100 + k)
      (by decide) (by decide)⟩

/-- C1 (failing input): with one venue, one quantum, and the sole quotation
M[0][1] = 5, the claimed recurrence of spec section 4.3 assigns
answer[0][1] = 5, but the code's DP loops iterate j only over [0, 1), so
the cell answer[0][1] — the final cell the claim designates as the result
from which reconstruction starts — keeps its zero initialisation. -/
theorem answer_final_column_unwritten :
    answer 1 M_single 0 1 = 0 ∧ answerSpec M_single 0 1 = 5 ∧ (0 : Int) ≠ 5 := by
  refine ⟨by decide, by decide, by decide⟩

/-- C2 (failing input): on the spec's linear-curve scenario (partition 4,
venue 0 quoting 10,20,30,40 and venue 1 quoting 9,18,27,36),
find_distribution returns the single-element vector [4]; the walk emits
that element for the highest-indexed venue, venue 1, whose quote for all 4
quanta is 36 — not the claimed allocation of all 4 quanta to venue 0 with
aggregate value 40. -/
theorem find_distribution_linear_scenario :
    find_distribution 4 2 M_linear = [4] ∧ M_linear 1 4 = 36 ∧
      M_linear 0 4 = 40 ∧ (36 : Int) ≠ 40 := by
  refine ⟨by decide, by decide, by decide, by decide⟩

/-- C5 (failing input): with one venue, one quantum, and every quote equal
to the sentinel MIN_VALUE, every computed DP cell is the sentinel
(answer[0][0] = MIN_VALUE), yet find_distribution returns the allocation
[1] — whose value M[0][1] is the sentinel — through its error-free Vec
return type; the literal final cell answer[0][1] holds 0, never the
sentinel, because the DP loops stop at j < partition. -/
theorem find_distribution_returns_sentinel_allocation :
    find_distribution 1 1 M_sentinel = [1] ∧
      answer 1 M_sentinel 0 0 = MIN_VALUE ∧
      M_sentinel 0 1 = MIN_VALUE ∧
      answer 1 M_sentinel 0 1 = 0 := by
  refine ⟨by decide, by decide, by decide, by decide⟩

/-- C6 (counterexample): with two venues and partition 4, the
reconstructor's output has length 1, not the venue count 2: it is a
growable list emitted in reverse visit order, and venue 0, never visited
because left reached 0 after the first step, receives no entry at all. -/
theorem find_distribution_not_venue_length :
    ¬ (find_distribution 4 2 M_zero).length = 2 := by decide

/-- The backpointer walk pushes at most one entry per venue from dex down
to 0, so its output length is at most dex + 1. -/
theorem backwalk_length_le (pt : Nat → Nat → Nat) :
    ∀ d left, (backwalk pt d left).length ≤ d + 1 := by
  intro d
  induction d with
  | zero =>
    intro left
    by_cases h : left = 0 <;> simp [backwalk, h]
  | succ n ih =>
    intro left
    by_cases h : left = 0
    · simp [backwalk, h]
    · simp only [backwalk, h, if_false, List.length_cons]
      have := ih (pt (n + 1) left)
      omega

/-- C6 (amended): the Allocation Reconstructor returns a variable-length
list, emitted in reverse visit order starting at the last venue, whose
length is at most the venue count; venues not visited by the backpointer
walk receive no entry rather than an explicit zero. -/
theorem find_distribution_length_le (partition dexCount : Nat)
    (amounts : Nat → Nat → Int) (hV : 1 ≤ dexCount) :
    (find_distribution partition dexCount amounts).length ≤ dexCount := by
  unfold find_distribution
  have := backwalk_length_le (parent partition amounts) (dexCount - 1) partition
  omega

/-- Witness for the amended C6 at two venues, partition 4. -/
theorem find_distribution_length_le_witness :
    1 ≤ 2 ∧ (find_distribution 4 2 M_zero).length ≤ 2 :=
  ⟨by decide, find_distribution_length_le 4 2 M_zero (by decide)⟩

/-- When every element maps to a value, the traversal returns the map. -/
theorem mapOption_eq_some_map {β γ : Type} (f : β → Option γ) (g : β → γ) :
    ∀ l : List β, (∀ x ∈ l, f x = some (g x)) → mapOption f l = some (l.map g) := by
  intro l
  induction l with
  | nil => intro _; rfl
  | cons a l ih =>
    intro h
    have ha : f a = some (g a) := h a (by simp)
    have hl : mapOption f l = some (l.map g) := ih fun x hx => h x (by simp [hx])
    simp [mapOption, ha, hl]

/-- Invariant of the inner k-scan of find_distribution: after folding the
candidates for k = 1..n on top of the k = 0 initialisation, the
accumulator holds the candidate of the least maximising split point ks
among k in [0, n], paired with the backpointer j - ks, because the scan
goes over k ascending and overwrites only on strict improvement. -/
theorem innerScan_aux (prev row : Nat → Int) (j : Nat) :
    ∀ n, ∃ ks, ks ≤ n ∧
      (List.range' 1 n).foldl (scanStep prev row j) (prev j, j) =
        (candidate prev row j ks, j - ks) ∧
      (∀ k, k ≤ n → candidate prev row j k ≤ candidate prev row j ks) ∧
      (∀ k, k < ks → candidate prev row j k < candidate prev row j ks) := by
  intro n
  induction n with
  | zero =>
    refine ⟨0, le_refl 0, by simp [candidate], ?_, by omega⟩
    intro k hk
    have hk0 : k = 0 := by omega
    subst hk0
    exact le_refl _
  | succ n ih =>
    obtain ⟨ks, hks, hfold, hmax, hmin⟩ := ih
    have hcand : candidate prev row j (n + 1) = prev (j - (n + 1)) + row (n + 1) := by
      simp [candidate]
    rw [List.range'_1_concat, Nat.add_comm 1 n, List.foldl_append, hfold]
    simp only [List.foldl_cons, List.foldl_nil, scanStep]
    by_cases hgt : prev (j - (n + 1)) + row (n + 1) > candidate prev row j ks
    · have hgt' : candidate prev row j ks < candidate prev row j (n + 1) := by
        rw [hcand]; exact hgt
      refine ⟨n + 1, le_refl _, by simp [hgt, hcand], ?_, ?_⟩
      · intro k hk
        rcases Nat.lt_or_ge k (n + 1) with h | h
        · exact le_trans (hmax k (by omega)) (le_of_lt hgt')
        · have hk1 : k = n + 1 := by omega
          subst hk1
          exact le_refl _
      · intro k hk
        exact lt_of_le_of_lt (hmax k (by omega)) hgt'
    · have hle : candidate prev row j (n + 1) ≤ candidate prev row j ks := by
        rw [hcand]; exact not_lt.mp hgt
      refine ⟨ks, by omega, by simp [hgt], ?_, hmin⟩
      intro k hk
      rcases Nat.lt_or_ge k (n + 1) with h | h
      · exact hmax k (by omega)
      · have hk1 : k = n + 1 := by omega
        subst hk1
        exact hle

/-- The inner scan of find_distribution computes the least maximising
split point over k in [0, j] together with its backpointer. -/
theorem innerScan_spec (prev row : Nat → Int) (j : Nat) :
    ∃ ks, ks ≤ j ∧ innerScan prev row j = (candidate prev row j ks, j - ks) ∧
      (∀ k, k ≤ j → candidate prev row j k ≤ candidate prev row j ks) ∧
      (∀ k, k < ks → candidate prev row j k < candidate prev row j ks) := by
  obtain ⟨ks, h1, h2, h3, h4⟩ := innerScan_aux prev row j j
  refine ⟨ks, h1, ?_, h3, h4⟩
  unfold innerScan
  exact h2

/-- C8: for every venue row i+1 and every quanta count j the DP loop
actually computes (j < partition), the optimizer keeps the smallest split
point ks among those achieving the maximal candidate value
answer[i][j-k] + amounts[i+1][k] (the k = 0 candidate being the
initialisation answer[i][j], the convention M[v][0] = 0), and stores
parent[i+1][j] = j - ks: the scan goes over k ascending and overwrites
only on strict improvement. -/
theorem parent_keeps_smallest_split (partition : Nat) (amounts : Nat → Nat → Int)
    (i j : Nat) (hj : j < partition) :
    ∃ ks, ks ≤ j ∧
      answer partition amounts (i + 1) j =
        candidate (answer partition amounts i) (amounts (i + 1)) j ks ∧
      parent partition amounts (i + 1) j = j - ks ∧
      (∀ k, k ≤ j →
        candidate (answer partition amounts i) (amounts (i + 1)) j k ≤
          candidate (answer partition amounts i) (amounts (i + 1)) j ks) ∧
      (∀ k, k < ks →
        candidate (answer partition amounts i) (amounts (i + 1)) j k <
          candidate (answer partition amounts i) (amounts (i + 1)) j ks) := by
  obtain ⟨ks, h1, h2, h3, h4⟩ :=
    innerScan_spec (answer partition amounts i) (amounts (i + 1)) j
  refine ⟨ks, h1, ?_, ?_, h3, h4⟩
  · simp [answer, hj, h2]
  · simp [parent, hj, h2]

/-- Witness for C8 on the linear scenario at venue row 1, j = 3. -/
theorem parent_keeps_smallest_split_witness :
    3 < 4 ∧ ∃ ks, ks ≤ 3 ∧
      answer 4 M_linear 1 3 = candidate (answer 4 M_linear 0) (M_linear 1) 3 ks ∧
      parent 4 M_linear 1 3 = 3 - ks ∧
      (∀ k, k ≤ 3 →
        candidate (answer 4 M_linear 0) (M_linear 1) 3 k ≤
          candidate (answer 4 M_linear 0) (M_linear 1) 3 ks) ∧
      (∀ k, k < ks →
        candidate (answer 4 M_linear 0) (M_linear 1) 3 k <
          candidate (answer 4 M_linear 0) (M_linear 1) 3 ks) :=
  ⟨by decide, parent_keeps_smallest_split 4 M_linear 0 3 (by decide)⟩

/-- Traversing a mapped list composes the functions. -/
theorem mapOption_map {β β' γ : Type} (f : β' → Option γ) (g : β → β') :
    ∀ l : List β, mapOption f (l.map g) = mapOption (fun x => f (g x)) l := by
  intro l
  induction l with
  | nil => rfl
  | cons a l ih => simp [mapOption, ih]

/-- Traversal only depends on the function's values on the list. -/
theorem mapOption_congr {β γ : Type} {f g : β → Option γ} :
    ∀ l : List β, (∀ x ∈ l, f x = g x) → mapOption f l = mapOption g l := by
  intro l
  induction l with
  | nil => intro _; rfl
  | cons a l ih =>
    intro h
    simp [mapOption, h a (by simp), ih fun x hx => h x (by simp [hx])]

/-- A single failing element makes the whole traversal fail. -/
theorem mapOption_eq_none {β γ : Type} (f : β → Option γ) {x : β} :
    ∀ l : List β, x ∈ l → f x = none → mapOption f l = none := by
  intro l
  induction l with
  | nil => intro h; simp at h
  | cons a l ih =>
    intro hmem hx
    rcases List.mem_cons.mp hmem with h | h
    · subst h; simp [mapOption, hx]
    · simp only [mapOption, ih h hx]
      cases f a <;> rfl

/-- The reserves calculate_swap_return hands to the curve at each level:
level i is quoted against source − Σ of the previous amounts and
dest + Σ of the previous amounts, because the closure updates the captured
reserves after every quote. -/
theorem calculate_swap_return_levels {α : Type} (swap : Nat → Nat → Nat → Option α) :
    ∀ (l : List Nat) (s d : Nat),
      calculate_swap_return swap l s d =
        mapOption
          (fun i => swap (l.getD i 0) (s - (l.take i).sum) (d + (l.take i).sum))
          (List.range l.length) := by
  intro l
  induction l with
  | nil => intro s d; rfl
  | cons a l ih =>
    intro s d
    have hmap :
        mapOption
            (fun i => swap ((a :: l).getD i 0) (s - ((a :: l).take i).sum)
              (d + ((a :: l).take i).sum))
            (List.map Nat.succ (List.range l.length)) =
          mapOption
            (fun i => swap (l.getD i 0) (s - a - (l.take i).sum)
              (d + a + (l.take i).sum))
            (List.range l.length) := by
      rw [mapOption_map]
      apply mapOption_congr
      intro i _
      simp [List.take_succ_cons, Nat.sub_sub, Nat.add_assoc]
    rw [List.length_cons, List.range_succ_eq_map]
    simp only [mapOption, hmap, ← ih, List.getD_cons_zero, List.take_zero,
      List.sum_nil, Nat.sub_zero, Nat.add_zero]
    cases hs : swap a s d with
    | none => simp [calculate_swap_return, hs]
    | some res =>
      cases hrec : calculate_swap_return swap l (s - a) (d + a) with
      | none => simp [calculate_swap_return, hs, hrec]
      | some tl => simp [calculate_swap_return, hs, hrec]

/-- C4 (counterexample): instrumenting the curve to return the reserves it
was handed, the second level of the venue is quoted against (9, 1), not
the unperturbed starting reserves (10, 0) used for the first level. -/
theorem calculate_swap_return_perturbs_reserves :
    calculate_swap_return (fun _ s d => some (s, d)) [1, 2] 10 0 =
      some [(10, 0), (9, 1)] ∧ ((9, 1) : Nat × Nat) ≠ (10, 0) := by
  refine ⟨by decide, by decide⟩

/-- C4 (amended): in calculate_swap_return the reserves passed to the
curve drift across the venue's levels: level i is quoted against
source − Σ previous amounts and dest + Σ previous amounts (exact whenever
no u64 underflow or overflow occurs), not against the same unperturbed
starting values for every level. -/
theorem calculate_swap_return_uses_drifted_reserves {α : Type}
    (swap : Nat → Nat → Nat → Option α) (in_amounts : List Nat) (s d : Nat) :
    calculate_swap_return swap in_amounts s d =
      mapOption
        (fun i => swap (in_amounts.getD i 0) (s - (in_amounts.take i).sum)
          (d + (in_amounts.take i).sum))
        (List.range in_amounts.length) :=
  calculate_swap_return_levels swap in_amounts s d

/-- C3 (counterexample): with a curve that rejects its only level, the
quote matrix builder does not return normally with a sentinel cell: the
.unwrap() on the rejected quote aborts it (the none outcome). -/
theorem calculate_swap_return_escapes_on_reject :
    calculate_swap_return (fun _ _ _ => (none : Option Int)) [1] 10 10 = none := by
  decide

/-- C3 (amended): if the curve rejects the quote at any level actually
reached (against the drifted reserves of that level), calculate_swap_return
terminates abnormally via .unwrap() — it never stores a sentinel and never
returns normally. -/
theorem calculate_swap_return_panics_on_reject {α : Type}
    (swap : Nat → Nat → Nat → Option α) (l : List Nat) (s d : Nat)
    (h : ∃ i, i < l.length ∧
      swap (l.getD i 0) (s - (l.take i).sum) (d + (l.take i).sum) = none) :
    calculate_swap_return swap l s d = none := by
  obtain ⟨i, hi, hnone⟩ := h
  rw [calculate_swap_return_levels]
  exact mapOption_eq_none _ (List.range l.length) (List.mem_range.mpr hi) hnone

/-- Witness for the amended C3 at a curve rejecting every quote. -/
theorem calculate_swap_return_panics_on_reject_witness :
    (∃ i, i < ([5] : List Nat).length ∧
      (fun _ _ _ => (none : Option Int)) (([5] : List Nat).getD i 0)
        (100 - (([5] : List Nat).take i).sum)
        (200 + (([5] : List Nat).take i).sum) = none) ∧
    calculate_swap_return (fun _ _ _ => (none : Option Int)) [5] 100 200 = none :=
  ⟨⟨0, by decide, rfl⟩,
    calculate_swap_return_panics_on_reject (fun _ _ _ => (none : Option Int))
      [5] 100 200 ⟨0, by decide, rfl⟩⟩

/-- C7: for every trade amount T > 0 and step count P ≥ 1 whose
intermediate products T*(i+1) all fit in u64, interpolation returns the
length-P sequence whose element i is ⌊T*(i+1)/P⌋; that sequence is
non-decreasing and its final element equals T exactly. -/
theorem interpolation_spec (T P : Nat) (hT : 0 < T) (hP : 1 ≤ P)
    (hrep : ∀ i, i < P → T * (i + 1) ≤ u64Max) :
    interpolation T P = some ((List.range P).map fun i => T * (i + 1) / P) ∧
    ((List.range P).map fun i => T * (i + 1) / P).length = P ∧
    ((List.range P).map fun i => T * (i + 1) / P).Pairwise (· ≤ ·) ∧
    ((List.range P).map fun i => T * (i + 1) / P).getLast? = some T := by
  have hP0 : P ≠ 0 := by omega
  refine ⟨?_, by simp, ?_, ?_⟩
  · apply mapOption_eq_some_map
    intro i hi
    have hiP : i < P := by simpa using hi
    simp [checked_mul, checked_div, hrep i hiP, hP0]
  · refine List.Pairwise.map _ ?_ (List.pairwise_lt_range P)
    intro a b hab
    exact Nat.div_le_div_right (Nat.mul_le_mul_left T (by omega))
  · have hmem : P - 1 < P := by omega
    rw [List.getLast?_eq_getElem?]
    simp only [List.length_map, List.length_range]
    rw [List.getElem?_map, List.getElem?_range hmem]
    have : (P - 1) + 1 = P := by omega
    simp [this, Nat.mul_div_cancel T (by omega : 0 < P)]

/-- Witness for C7 at T = 10, P = 4. -/
theorem interpolation_spec_witness :
    0 < 10 ∧ 1 ≤ 4 ∧ (∀ i, i < 4 → 10 * (i + 1) ≤ u64Max) ∧
      (interpolation 10 4 = some ((List.range 4).map fun i => 10 * (i + 1) / 4) ∧
        ((List.range 4).map fun i => 10 * (i + 1) / 4).length = 4 ∧
        ((List.range 4).map fun i => 10 * (i + 1) / 4).Pairwise (· ≤ ·) ∧
        ((List.range 4).map fun i => 10 * (i + 1) / 4).getLast? = some 10) :=
  ⟨by decide, by decide, by decide,
    interpolation_spec 10 4 (by decide) (by decide) (by decide)⟩

end SwapUtils

namespace OORouteProofs

open OORoute

/-- With at least 16 bytes available, every iteration of the decoding loop
parses the same two u64 values, because each iteration re-reads the outer
slice: the loop yields n copies of the pair decoded from the first 16
bytes. -/
theorem readSwaps_replicate (rest : List Nat) (h : 16 ≤ rest.length) :
    ∀ n, readSwaps rest n =
      some (List.replicate n
        ⟨fromLeBytes (rest.take 8), fromLeBytes ((rest.drop 8).take 8)⟩) := by
  intro n
  induction n with
  | zero => rfl
  | succ n ih =>
    have h8 : 8 ≤ rest.length := by omega
    have h8' : 8 ≤ rest.length - 8 := by omega
    simp [readSwaps, unpack_u64, h8, h8', ih, List.replicate_succ]

/-- C10: every byte string accepted by OOSwapInstruction::unpack consists
of tag byte 0, count byte n, and a payload of exactly 16*n further bytes,
and decodes to n copies of the (amount_in, minimum_amount_out) pair parsed
from the first 16 payload bytes: the loop re-reads the same slice on every
iteration, so payload bytes after the first 16 never influence the decoded
instruction. -/
theorem unpack_repeats_first_pair (n : Nat) (payload : List Nat)
    (hn : n < 256) (hlen : payload.length = 16 * n) :
    unpack (0 :: n :: payload) =
      some (OOSwapInstruction.OOSwap
        ⟨List.replicate n
          ⟨fromLeBytes (payload.take 8), fromLeBytes ((payload.drop 8).take 8)⟩,
          n⟩) := by
  have hmod : payload.length % 16 = 0 := by
    rw [hlen]
    simp [Nat.mul_mod_right]
  have hdiv : payload.length / 16 = n := by
    rw [hlen]
    exact Nat.mul_div_cancel_left n (by decide)
  have hmod256 : n % 256 = n := Nat.mod_eq_of_lt hn
  rcases Nat.eq_zero_or_pos n with h0 | hpos
  · subst h0
    have hnil : payload = [] := List.eq_nil_of_length_eq_zero (by omega)
    subst hnil
    rfl
  · have h16 : 16 ≤ payload.length := by omega
    simp [unpack, hmod, hdiv, hmod256, readSwaps_replicate payload h16 n]

/-- Witness for C10: a 2-entry instruction whose payload is the bytes
0..31; both decoded entries come from bytes 0..15. -/
theorem unpack_repeats_first_pair_witness :
    2 < 256 ∧ (List.range 32).length = 16 * 2 ∧
      unpack (0 :: 2 :: List.range 32) =
        some (OOSwapInstruction.OOSwap
          ⟨List.replicate 2
            ⟨fromLeBytes ((List.range 32).take 8),
              fromLeBytes (((List.range 32).drop 8).take 8)⟩, 2⟩) :=
  ⟨by decide, by simp,
    unpack_repeats_first_pair 2 (List.range 32) (by decide) (by simp)⟩

end OORouteProofs
